import Mathlib

set_option maxRecDepth 8192

/- Verification development for the liquidity reallocation planner of the
   public-allocator scripts: the market data model, the greedy withdrawal
   planner and its vault ordering, the plan summary, the downstream encoder
   ordering, the market identifier, and the market-data lookup guard. -/

/-- Market parameters: the five fields that determine a lending market
    (interface MarketParams, src/scripts/apiBundler.ts lines 20 to 26).
    Addresses are kept as strings, as in the source; lltv is a non-negative
    integer (a bigint in the source). -/
structure MarketParams where
  loanToken : String
  collateralToken : String
  oracle : String
  irm : String
  lltv : Nat
deriving DecidableEq, Repr

/-- A planned withdrawal: market parameters plus an amount
    (interface Withdrawal, src/scripts/apiBundler.ts lines 33 to 36). -/
structure Withdrawal where
  marketParams : MarketParams
  amount : Nat
deriving DecidableEq, Repr

/-- One entry of marketData.publicAllocatorSharedLiquidity as consumed by
    extractDataForReallocation: the vault address (item.vault.address), the
    withdrawable assets (item.assets) and the source market parameters
    (item.allocationMarket, already flattened to the five fields that the
    code copies out). -/
structure SharedLiquidityItem where
  vault : String
  assets : Nat
  allocationMarket : MarketParams
deriving DecidableEq, Repr

/-- The fields of the marketByUniqueKey response that
    extractDataForReallocation reads: state.liquidityAssets, the shared
    liquidity list, and the five fields of the target market used to build
    supplyMarketParams (apiBundler.ts lines 162, 176, 233 to 239). -/
structure MarketData where
  liquidityAssets : Nat
  publicAllocatorSharedLiquidity : List SharedLiquidityItem
  loanAssetAddress : String
  collateralAssetAddress : String
  oracleAddress : String
  irmAddress : String
  lltv : Nat
deriving DecidableEq, Repr

/-- Floor base-2 logarithm by repeated halving, written with an explicit
    fuel argument so that applications reduce by plain structural kernel
    computation; fuel n is always enough since the logarithm of n is far
    smaller than n. -/
def log2Floor : Nat → Nat → Nat
  | 0, _ => 0
  | fuel + 1, n => if n < 2 then 0 else log2Floor fuel (n / 2) + 1

/-- Value of the IEEE-754 double produced by the JavaScript conversion
    Number(n) for a non-negative bigint n: round to nearest with ties to
    even at a 53-bit significand; none models Infinity (overflow, which
    happens when the rounded value reaches 2 ^ 1024 - 2 ^ 970). Every
    double obtained from a natural number has an integral value, so a
    finite result is returned as that integer. -/
def jsNumber (n : Nat) : Option Nat :=
  if n < 2 ^ 53 then some n
  else
    let e := log2Floor n n - 52
    let q := n / 2 ^ e
    let q2 :=
      if 2 ^ (e - 1) < n % 2 ^ e ∨ (n % 2 ^ e = 2 ^ (e - 1) ∧ q % 2 = 1) then q + 1 else q
    let v := q2 * 2 ^ e
    if 2 ^ 1024 - 2 ^ 970 ≤ v then none else some v

/-- Sign of the sort comparator Number(b) - Number(a) used on vault
    aggregates (apiBundler.ts lines 186 to 188): jsNumGt x y is true when
    the double x compares strictly greater than the double y. IEEE-754
    subtraction of distinct finite doubles is nonzero with the exact sign,
    Infinity minus a finite double is infinite with the exact sign, and
    Infinity - Infinity is NaN, which Array.prototype.sort treats as zero,
    that is, as a tie. -/
def jsNumGt : Option Nat → Option Nat → Bool
  | none, none => false
  | none, some _ => true
  | some _, none => false
  | some x, some y => decide (y < x)

/-- Non-strict version of jsNumGt: x does not compare below y under the
    comparator, i.e. x may legitimately be placed before y by the sort. -/
def jsNumGe (x y : Option Nat) : Bool := ! jsNumGt y x

/-- Model of the update acc[k] = (acc[k] || 0n) + v on a JavaScript object
    with string (non-index) keys, represented as an association list in
    property insertion order: an existing key is updated in place, a new
    key is appended at the end. -/
def upsertAdd : List (String × Nat) → String → Nat → List (String × Nat)
  | [], k, v => [(k, v)]
  | (k0, v0) :: rest, k, v =>
    if k0 = k then (k0, v0 + v) :: rest else (k0, v0) :: upsertAdd rest k v

/-- The reduce that groups and sums assets by vault (apiBundler.ts lines
    176 to 183): Object.entries of the resulting object lists the keys in
    first-appearance order, modelled by the association list. -/
def groupSumByKey (keyOf : α → String) (valOf : α → Nat) (l : List α) : List (String × Nat) :=
  l.foldl (fun acc item => upsertAdd acc (keyOf item) (valOf item)) []

/-- Order relation realised by the comparator ([, a], [, b]) =>
    Number(b) - Number(a): entry p may come before entry q when the double
    approximation of the aggregate of p is at least that of q. -/
def vaultOrder (p q : String × Nat) : Prop := jsNumGe (jsNumber p.2) (jsNumber q.2) = true

instance : DecidableRel vaultOrder := fun p q => by
  unfold vaultOrder; infer_instance

/-- The vault sort (apiBundler.ts lines 186 to 188): descending in the
    double approximation of the aggregate assets. Array.prototype.sort is
    stable (ECMAScript 2019), and a stable sort with respect to a total
    preorder is uniquely determined, so stable insertion sort models it. -/
def sortVaultEntries (l : List (String × Nat)) : List (String × Nat) :=
  List.insertionSort vaultOrder l

/-- Model of withdrawalsPerVault[vaultAddress].push(w) together with the
    on-demand creation of the key (apiBundler.ts lines 225 to 229): the
    group of an existing vault key is extended in place, a new vault key is
    appended at the end. -/
def pushWithdrawal : List (String × List Withdrawal) → String → Withdrawal →
    List (String × List Withdrawal)
  | [], k, w => [(k, [w])]
  | (k0, ws) :: rest, k, w =>
    if k0 = k then (k0, ws ++ [w]) :: rest else (k0, ws) :: pushWithdrawal rest k w

/-- Inner loop of the greedy walk (apiBundler.ts lines 200 to 230, and the
    identical loop of processWithdrawals in the SDK comparison script): for
    each allocation of the current vault, stop as soon as the remaining
    need is exhausted, otherwise take min(assets, remaining), push the
    withdrawal and update the counters. The state is
    (withdrawalsPerVault, remainingLiquidityNeeded, totalReallocated). -/
def takeFromAllocations (assetsOf : α → Nat) (paramsOf : α → MarketParams)
    (vaultAddress : String) (allocs : List α)
    (st : List (String × List Withdrawal) × Nat × Nat) :
    List (String × List Withdrawal) × Nat × Nat :=
  match allocs with
  | [] => st
  | item :: rest =>
    if st.2.1 = 0 then st
    else
      let amountToTake := min (assetsOf item) st.2.1
      takeFromAllocations assetsOf paramsOf vaultAddress rest
        (pushWithdrawal st.1 vaultAddress ⟨paramsOf item, amountToTake⟩,
          st.2.1 - amountToTake, st.2.2 + amountToTake)

/-- Outer loop of the greedy walk (apiBundler.ts lines 193 to 231): visit
    the sorted vaults in order, stop as soon as the remaining need is
    exhausted, and process the allocations of each visited vault, selected
    by filtering the item list on the vault address, in their original
    relative order. -/
def walkVaults (vaultOf : α → String) (assetsOf : α → Nat) (paramsOf : α → MarketParams)
    (items : List α) (vaults : List (String × Nat))
    (st : List (String × List Withdrawal) × Nat × Nat) :
    List (String × List Withdrawal) × Nat × Nat :=
  match vaults with
  | [] => st
  | (vaultAddress, _) :: rest =>
    if st.2.1 = 0 then st
    else
      walkVaults vaultOf assetsOf paramsOf items rest
        (takeFromAllocations assetsOf paramsOf vaultAddress
          (items.filter (fun item => vaultOf item = vaultAddress)) st)

def BUFFER_FACTOR_NUMERATOR : Nat := 1001

def BUFFER_FACTOR_DENOMINATOR : Nat := 1000

/-- The buffered reallocation need (apiBundler.ts lines 164 to 171): zero
    when the requested liquidity is already available, otherwise the
    difference scaled by 1001 / 1000 in integer arithmetic. -/
def liquidityNeededFromReallocation (availableLiquidity liquidity : Nat) : Nat :=
  if availableLiquidity < liquidity then
    (liquidity - availableLiquidity) * BUFFER_FACTOR_NUMERATOR / BUFFER_FACTOR_DENOMINATOR
  else 0

/-- The per-vault aggregate assets of the shared liquidity list
    (apiBundler.ts lines 176 to 183). -/
def vaultTotalAssets (items : List SharedLiquidityItem) : List (String × Nat) :=
  groupSumByKey SharedLiquidityItem.vault SharedLiquidityItem.assets items

/-- The sorted vault entries of extractDataForReallocation (apiBundler.ts
    lines 186 to 188). -/
def sortedVaults (items : List SharedLiquidityItem) : List (String × Nat) :=
  sortVaultEntries (vaultTotalAssets items)

/-- The summary object built at apiBundler.ts lines 243 to 252. -/
structure Summary where
  requestedLiquidity : Nat
  totalLiquidityProvided : Nat
  totalReallocated : Nat
  liquidityShortfall : Nat
  isLiquidityFullyMatched : Bool
deriving DecidableEq, Repr

/-- The value returned by extractDataForReallocation (apiBundler.ts line
    254). -/
structure ReallocationResult where
  withdrawalsPerVault : List (String × List Withdrawal)
  supplyMarketParams : MarketParams
  summary : Summary
deriving DecidableEq, Repr

/-- extractDataForReallocation (apiBundler.ts lines 160 to 255): compute
    the buffered need, group and sort the vaults, run the greedy walk, and
    derive the supply market parameters and the summary. -/
def extractDataForReallocation (marketData : MarketData) (liquidity : Nat) :
    ReallocationResult :=
  let availableLiquidity := marketData.liquidityAssets
  let needed := liquidityNeededFromReallocation availableLiquidity liquidity
  let walked := walkVaults SharedLiquidityItem.vault SharedLiquidityItem.assets
    SharedLiquidityItem.allocationMarket marketData.publicAllocatorSharedLiquidity
    (sortedVaults marketData.publicAllocatorSharedLiquidity) ([], needed, 0)
  let totalReallocated := walked.2.2
  let totalLiquidityProvided := availableLiquidity + totalReallocated
  { withdrawalsPerVault := walked.1
    supplyMarketParams :=
      { loanToken := marketData.loanAssetAddress
        collateralToken := marketData.collateralAssetAddress
        oracle := marketData.oracleAddress
        irm := marketData.irmAddress
        lltv := marketData.lltv }
    summary :=
      { requestedLiquidity := liquidity
        totalLiquidityProvided := totalLiquidityProvided
        totalReallocated := totalReallocated
        liquidityShortfall :=
          if liquidity ≤ totalLiquidityProvided then 0 else liquidity - totalLiquidityProvided
        isLiquidityFullyMatched := decide (liquidity ≤ totalLiquidityProvided) } }

/-- One entry of the rpcData.withdrawals list consumed by the
    processWithdrawals of the SDK comparison script: vault address, assets,
    and the market id used to look the parameters up in the SDK registry. -/
structure PublicReallocation where
  vault : String
  assets : Nat
  id : String
deriving DecidableEq, Repr

/-- processWithdrawals of the SDK comparison script (the function at lines
    647 to 700 of the script that groups by vault, sorts by the comparator
    Number(b) - Number(a) and walks greedily): identical control flow to
    the walk of extractDataForReallocation; the pushed market parameters
    come from the ambient SDK registry MarketParams.get, passed here as
    getParams. Returns (withdrawalsPerVault, totalReallocated). -/
def processWithdrawals (getParams : String → MarketParams)
    (withdrawals : List PublicReallocation) (liquidityNeeded : Nat) :
    List (String × List Withdrawal) × Nat :=
  let vaultTotals := groupSumByKey PublicReallocation.vault PublicReallocation.assets withdrawals
  let walked := walkVaults PublicReallocation.vault PublicReallocation.assets
    (fun item => getParams item.id) withdrawals (sortVaultEntries vaultTotals)
    ([], liquidityNeeded, 0)
  (walked.1, walked.2.2)

/-- The record returned by processWithdrawals of
    src/scripts/api/apiPublicAllocatorSimulated.ts (lines 287 to 338). -/
structure ProcessedWithdrawalsResult where
  processedWithdrawals : List (String × List Withdrawal)
  totalReallocated : Nat
  remainingLiquidity : Nat
  isLiquidityFullyMatched : Bool
deriving DecidableEq, Repr

/-- Inner loop of the simulated-script processWithdrawals (lines 309 to
    324): collect capped withdrawals for one vault; the state is
    (collected, remainingLiquidity, totalReallocated). -/
def takeSimulated (withdrawals : List Withdrawal) (st : List Withdrawal × Nat × Nat) :
    List Withdrawal × Nat × Nat :=
  match withdrawals with
  | [] => st
  | w :: rest =>
    if st.2.1 = 0 then st
    else
      let amountToWithdraw := min w.amount st.2.1
      takeSimulated rest
        (st.1 ++ [⟨w.marketParams, amountToWithdraw⟩],
          st.2.1 - amountToWithdraw, st.2.2 + amountToWithdraw)

/-- Outer loop of the simulated-script processWithdrawals (lines 301 to
    330). The source creates the vault key before the inner loop and
    deletes it afterwards when no withdrawal was pushed, so the net effect
    is to append the entry exactly when the collected list is nonempty. -/
def processWithdrawalsSimulatedAux (entries : List (String × List Withdrawal))
    (st : List (String × List Withdrawal) × Nat × Nat) :
    List (String × List Withdrawal) × Nat × Nat :=
  match entries with
  | [] => st
  | (vaultAddress, withdrawals) :: rest =>
    if st.2.1 = 0 then st
    else
      let taken := takeSimulated withdrawals ([], st.2.1, st.2.2)
      let wpv := if taken.1 = [] then st.1 else st.1 ++ [(vaultAddress, taken.1)]
      processWithdrawalsSimulatedAux rest (wpv, taken.2.1, taken.2.2)

/-- processWithdrawals of apiPublicAllocatorSimulated.ts (lines 287 to
    338): walk the given vault map in entry order, cap every withdrawal at
    the remaining liquidity, and report the totals and the matched flag
    (remainingLiquidity less than or equal to zero). -/
def processWithdrawalsSimulated (withdrawalsPerVault : List (String × List Withdrawal))
    (liquidityToReallocate : Nat) : ProcessedWithdrawalsResult :=
  let walked := processWithdrawalsSimulatedAux withdrawalsPerVault ([], liquidityToReallocate, 0)
  { processedWithdrawals := walked.1
    totalReallocated := walked.2.2
    remainingLiquidity := walked.2.1
    isLiquidityFullyMatched := decide (walked.2.1 ≤ 0) }

/-- The two values derived by logReallocationSummary of the SDK comparison
    script (lines 600 to 604): the fully-matched flag and the shortfall. -/
def logReallocationSummary (requestedLiquidity availableLiquidity totalReallocated : Nat) :
    Bool × Nat :=
  let isLiquidityFullyMatched :=
    decide (requestedLiquidity ≤ availableLiquidity + totalReallocated)
  let liquidityShortfall :=
    if isLiquidityFullyMatched then 0
    else requestedLiquidity - (availableLiquidity + totalReallocated)
  (isLiquidityFullyMatched, liquidityShortfall)

/-- Relation realised by the downstream encoder sort
    sort((a, b) => getMarketId(a.marketParams).localeCompare(getMarketId(b.marketParams)))
    at apiBundler.ts lines 349 to 351 and by the identical sort on the SDK
    id field in createAndSaveTransaction: a may come before b when the id
    of a is at most the id of b. On the fixed-length lowercase hexadecimal
    id strings produced by keccak256, localeCompare agrees with plain
    lexicographic string comparison, modelled by the order on String. -/
def withdrawalOrder (mid : MarketParams → String) (a b : Withdrawal) : Prop :=
  mid a.marketParams ≤ mid b.marketParams

instance (mid : MarketParams → String) : DecidableRel (withdrawalOrder mid) := fun a b => by
  unfold withdrawalOrder; infer_instance

/-- The per-vault encoder sort: ascending in the market id, stable
    insertion sort standing for the stable Array.prototype.sort. -/
def sortWithdrawalsForEncoding (mid : MarketParams → String) (ws : List Withdrawal) :
    List Withdrawal :=
  List.insertionSort (withdrawalOrder mid) ws

/-- Value of one hexadecimal digit character, zero on anything else. -/
def hexDigitVal (c : Char) : Nat :=
  if c.isDigit then c.toNat - 48
  else if 97 ≤ c.toNat ∧ c.toNat ≤ 102 then c.toNat - 87
  else if 65 ≤ c.toNat ∧ c.toNat ≤ 70 then c.toNat - 55
  else 0

/-- Numeric value of a 0x-prefixed hexadecimal address string, as read by
    the ABI coder before padding it into a 32-byte word; letter case does
    not affect the value. -/
def hexToNat (s : String) : Nat :=
  (s.drop 2).toList.foldl (fun acc c => acc * 16 + hexDigitVal c) 0

/-- One 32-byte big-endian ABI word holding an unsigned value: addresses
    are left-padded to 32 bytes, a uint256 fills the word. -/
def abiWord (n : Nat) : List Nat :=
  (List.range 32).map (fun i => n / 256 ^ (31 - i) % 256)

/-- The encoding built inside computeId (src/utils.ts lines 28 to 40):
    AbiCoder.encode of the five fields with types address, address,
    address, address, uint256 in this fixed order. -/
def abiEncodeMarketParamsUtils (p : MarketParams) : List Nat :=
  abiWord (hexToNat p.loanToken) ++ abiWord (hexToNat p.collateralToken) ++
    abiWord (hexToNat p.oracle) ++ abiWord (hexToNat p.irm) ++ abiWord p.lltv

/-- computeId (src/utils.ts lines 28 to 40): keccak256 of the canonical
    encoding. keccak is the keccak256 function imported from the ethers
    library, shared by both call sites, so it is passed as a parameter. -/
def computeId (keccak : List Nat → String) (p : MarketParams) : String :=
  keccak (abiEncodeMarketParamsUtils p)

/-- The encoding built inside getMarketId (apiBundler.ts lines 262 to
    274): AbiCoder.defaultAbiCoder().encode of the same five fields with
    the same types in the same order. -/
def abiEncodeMarketParamsApi (p : MarketParams) : List Nat :=
  abiWord (hexToNat p.loanToken) ++ abiWord (hexToNat p.collateralToken) ++
    abiWord (hexToNat p.oracle) ++ abiWord (hexToNat p.irm) ++ abiWord p.lltv

/-- getMarketId (apiBundler.ts lines 262 to 274): keccak256 of the
    canonical encoding, with the same imported keccak256. -/
def getMarketId (keccak : List Nat → String) (p : MarketParams) : String :=
  keccak (abiEncodeMarketParamsApi p)

/-- The JavaScript value held in the marketData variable of reallocateTo:
    either a populated market-data object or the empty object produced by
    the default in queryMarketData. -/
inductive JsMarketData where
  | obj (md : MarketData)
  | emptyObj
deriving DecidableEq, Repr

/-- queryMarketData (apiBundler.ts lines 145 to 152): returns
    data?.data?.marketByUniqueKey or, when that is absent or null, the
    empty object; the argument none models an absent or null record in the
    API response. -/
def queryMarketData (marketByUniqueKey : Option MarketData) : JsMarketData :=
  match marketByUniqueKey with
  | some md => JsMarketData.obj md
  | none => JsMarketData.emptyObj

/-- JavaScript truthiness of the value returned by queryMarketData: every
    object, including the empty object produced by the default, is truthy,
    so this function is constantly true. -/
def jsTruthy : JsMarketData → Bool := fun _ => true

/-- The market-data phase of reallocateTo (apiBundler.ts lines 297 to
    301): fetch, guard with the not-found check, and call
    extractDataForReallocation. Except.error models a thrown exception;
    reading marketData.state.liquidityAssets on the empty object throws a
    TypeError because marketData.state is undefined. -/
def reallocateToPlanning (marketByUniqueKey : Option MarketData) (liquidity : Nat) :
    Except String ReallocationResult :=
  let marketData := queryMarketData marketByUniqueKey
  if jsTruthy marketData = false then Except.error "Market data not found."
  else
    match marketData with
    | JsMarketData.obj md => Except.ok (extractDataForReallocation md liquidity)
    | JsMarketData.emptyObj => Except.error "TypeError: cannot read liquidityAssets of undefined"

/-- Total amount over every withdrawal of every vault group of a plan. -/
def sumWpv (wpv : List (String × List Withdrawal)) : Nat :=
  (wpv.map (fun p => (p.2.map Withdrawal.amount).sum)).sum

/-- Every withdrawal of every vault group of the plan has a positive
    amount. -/
def wpvAmountsPos (wpv : List (String × List Withdrawal)) : Prop :=
  ∀ p ∈ wpv, ∀ w ∈ p.2, 0 < w.amount

/-- Every vault key of the plan carries at least one withdrawal. -/
def wpvGroupsNonempty (wpv : List (String × List Withdrawal)) : Prop :=
  ∀ p ∈ wpv, p.2 ≠ []

/-- A sample source market used for concrete evaluations. -/
def sampleMarket : MarketParams :=
  { loanToken := "L", collateralToken := "C", oracle := "O", irm := "I", lltv := 0 }

/-- A second sample market, differing from sampleMarket in its lltv. -/
def sampleMarketOne : MarketParams :=
  { loanToken := "L", collateralToken := "C", oracle := "O", irm := "I", lltv := 1 }

/-- Market data with an empty target market and a single source allocation
    of 3000 units. -/
def marketDataBuffer : MarketData :=
  { liquidityAssets := 0
    publicAllocatorSharedLiquidity := [{ vault := "A", assets := 3000, allocationMarket := sampleMarket }]
    loanAssetAddress := "tl", collateralAssetAddress := "tc", oracleAddress := "to"
    irmAddress := "ti", lltv := 0 }

/-- Two source allocations whose per-vault aggregates, 2 ^ 53 and
    2 ^ 53 + 1, are distinct integers that convert to the same double. -/
def itemsHuge : List SharedLiquidityItem :=
  [{ vault := "A", assets := 2 ^ 53, allocationMarket := sampleMarket },
   { vault := "B", assets := 2 ^ 53 + 1, allocationMarket := sampleMarket }]

/-- Market data with an empty target market and a single zero-asset source
    allocation. -/
def marketDataZeroAsset : MarketData :=
  { liquidityAssets := 0
    publicAllocatorSharedLiquidity := [{ vault := "A", assets := 0, allocationMarket := sampleMarket }]
    loanAssetAddress := "tl", collateralAssetAddress := "tc", oracleAddress := "to"
    irmAddress := "ti", lltv := 0 }

/-- Market data with an empty target market and a single positive source
    allocation of 40 units. -/
def marketDataPos : MarketData :=
  { liquidityAssets := 0
    publicAllocatorSharedLiquidity := [{ vault := "A", assets := 40, allocationMarket := sampleMarket }]
    loanAssetAddress := "tl", collateralAssetAddress := "tc", oracleAddress := "to"
    irmAddress := "ti", lltv := 0 }

/-- A concrete hash function used to instantiate statements that hold for
    every hash implementation. -/
def sampleHash (l : List Nat) : String := toString (l.getLast?.getD 0)

/-- A sample withdrawal on sampleMarket. -/
def wSample0 : Withdrawal := { marketParams := sampleMarket, amount := 5 }

/-- A sample withdrawal on sampleMarketOne. -/
def wSample1 : Withdrawal := { marketParams := sampleMarketOne, amount := 7 }

/- Helper lemmas about the comparator order. -/

lemma jsNumGt_irrefl (x : Option Nat) : jsNumGt x x = false := by
  cases x <;> simp [jsNumGt]

lemma jsNumGe_refl_of_eq {x y : Option Nat} (h : x = y) : jsNumGe x y = true := by
  subst h; simp [jsNumGe, jsNumGt_irrefl]

lemma jsNumGe_total (x y : Option Nat) : jsNumGe x y = true ∨ jsNumGe y x = true := by
  cases x <;> cases y <;> simp [jsNumGe, jsNumGt] <;> omega

lemma jsNumGe_trans {x y z : Option Nat} (h1 : jsNumGe x y = true) (h2 : jsNumGe y z = true) :
    jsNumGe x z = true := by
  cases x <;> cases y <;> cases z <;> simp [jsNumGe, jsNumGt] at * <;> omega

instance : IsTotal (String × Nat) vaultOrder :=
  ⟨fun p q => jsNumGe_total (jsNumber p.2) (jsNumber q.2)⟩

instance : IsTrans (String × Nat) vaultOrder :=
  ⟨fun _ _ _ h1 h2 => jsNumGe_trans h1 h2⟩

instance (mid : MarketParams → String) : IsTotal Withdrawal (withdrawalOrder mid) :=
  ⟨fun a b => le_total (mid a.marketParams) (mid b.marketParams)⟩

instance (mid : MarketParams → String) : IsTrans Withdrawal (withdrawalOrder mid) :=
  ⟨fun _ _ _ h1 h2 => le_trans h1 h2⟩

lemma jsNumber_of_lt (n : Nat) (h : n < 2 ^ 53) : jsNumber n = some n := by
  unfold jsNumber
  rw [if_pos h]

/- Conservation of liquidity along the greedy walk. -/

lemma takeFromAllocations_conserves (assetsOf : α → Nat) (paramsOf : α → MarketParams)
    (vaultAddress : String) :
    ∀ (allocs : List α) (wpv : List (String × List Withdrawal)) (r t : Nat),
    (takeFromAllocations assetsOf paramsOf vaultAddress allocs (wpv, r, t)).2.2 +
      (takeFromAllocations assetsOf paramsOf vaultAddress allocs (wpv, r, t)).2.1 = t + r := by
  intro allocs
  induction allocs with
  | nil => intro wpv r t; rfl
  | cons item rest ih =>
    intro wpv r t
    by_cases h : r = 0
    · simp [takeFromAllocations, h]
    · simp only [takeFromAllocations, if_neg h]
      have hih := ih (pushWithdrawal wpv vaultAddress ⟨paramsOf item, min (assetsOf item) r⟩)
        (r - min (assetsOf item) r) (t + min (assetsOf item) r)
      have hmin : min (assetsOf item) r ≤ r := Nat.min_le_right _ _
      omega

lemma walkVaults_conserves (vaultOf : α → String) (assetsOf : α → Nat)
    (paramsOf : α → MarketParams) (items : List α) :
    ∀ (vaults : List (String × Nat)) (wpv : List (String × List Withdrawal)) (r t : Nat),
    (walkVaults vaultOf assetsOf paramsOf items vaults (wpv, r, t)).2.2 +
      (walkVaults vaultOf assetsOf paramsOf items vaults (wpv, r, t)).2.1 = t + r := by
  intro vaults
  induction vaults with
  | nil => intro wpv r t; rfl
  | cons v rest ih =>
    intro wpv r t
    obtain ⟨vaultAddress, agg⟩ := v
    by_cases h : r = 0
    · simp [walkVaults, h]
    · simp only [walkVaults, if_neg h]
      rcases htake : takeFromAllocations assetsOf paramsOf vaultAddress
        (items.filter (fun item => vaultOf item = vaultAddress)) (wpv, r, t) with ⟨wpv2, r2, t2⟩
      have hih := ih wpv2 r2 t2
      have hcons := takeFromAllocations_conserves assetsOf paramsOf vaultAddress
        (items.filter (fun item => vaultOf item = vaultAddress)) wpv r t
      rw [htake] at hcons
      dsimp only at hcons
      omega

/- The total of the collected withdrawal amounts tracks totalReallocated. -/

lemma sumWpv_pushWithdrawal :
    ∀ (wpv : List (String × List Withdrawal)) (k : String) (w : Withdrawal),
    sumWpv (pushWithdrawal wpv k w) = sumWpv wpv + w.amount := by
  intro wpv k w
  induction wpv with
  | nil => simp [pushWithdrawal, sumWpv]
  | cons p rest ih =>
    obtain ⟨k0, ws⟩ := p
    by_cases h : k0 = k
    · simp [pushWithdrawal, h, sumWpv]
      omega
    · simp [pushWithdrawal, h, sumWpv] at ih ⊢
      omega

lemma takeFromAllocations_sumWpv (assetsOf : α → Nat) (paramsOf : α → MarketParams)
    (vaultAddress : String) :
    ∀ (allocs : List α) (wpv : List (String × List Withdrawal)) (r t : Nat),
    sumWpv (takeFromAllocations assetsOf paramsOf vaultAddress allocs (wpv, r, t)).1 + t =
      sumWpv wpv + (takeFromAllocations assetsOf paramsOf vaultAddress allocs (wpv, r, t)).2.2 := by
  intro allocs
  induction allocs with
  | nil => intro wpv r t; rfl
  | cons item rest ih =>
    intro wpv r t
    by_cases h : r = 0
    · simp [takeFromAllocations, h]
    · simp only [takeFromAllocations, if_neg h]
      have hih := ih (pushWithdrawal wpv vaultAddress ⟨paramsOf item, min (assetsOf item) r⟩)
        (r - min (assetsOf item) r) (t + min (assetsOf item) r)
      simp only [sumWpv_pushWithdrawal] at hih
      omega

lemma walkVaults_sumWpv (vaultOf : α → String) (assetsOf : α → Nat)
    (paramsOf : α → MarketParams) (items : List α) :
    ∀ (vaults : List (String × Nat)) (wpv : List (String × List Withdrawal)) (r t : Nat),
    sumWpv (walkVaults vaultOf assetsOf paramsOf items vaults (wpv, r, t)).1 + t =
      sumWpv wpv + (walkVaults vaultOf assetsOf paramsOf items vaults (wpv, r, t)).2.2 := by
  intro vaults
  induction vaults with
  | nil => intro wpv r t; rfl
  | cons v rest ih =>
    intro wpv r t
    obtain ⟨vaultAddress, agg⟩ := v
    by_cases h : r = 0
    · simp [walkVaults, h]
    · simp only [walkVaults, if_neg h]
      rcases htake : takeFromAllocations assetsOf paramsOf vaultAddress
        (items.filter (fun item => vaultOf item = vaultAddress)) (wpv, r, t) with ⟨wpv2, r2, t2⟩
      have hih := ih wpv2 r2 t2
      have hsum := takeFromAllocations_sumWpv assetsOf paramsOf vaultAddress
        (items.filter (fun item => vaultOf item = vaultAddress)) wpv r t
      rw [htake] at hsum
      dsimp only at hsum
      omega

/- The walk does nothing once the remaining need is exhausted. -/

lemma walkVaults_of_remaining_zero (vaultOf : α → String) (assetsOf : α → Nat)
    (paramsOf : α → MarketParams) (items : List α) (vaults : List (String × Nat))
    (wpv : List (String × List Withdrawal)) (t : Nat) :
    walkVaults vaultOf assetsOf paramsOf items vaults (wpv, 0, t) = (wpv, 0, t) := by
  cases vaults with
  | nil => rfl
  | cons v rest =>
    obtain ⟨vaultAddress, agg⟩ := v
    simp [walkVaults]

/- Conservation for the simulated-script variant. -/

lemma takeSimulated_conserves :
    ∀ (withdrawals : List Withdrawal) (acc : List Withdrawal) (r t : Nat),
    (takeSimulated withdrawals (acc, r, t)).2.2 + (takeSimulated withdrawals (acc, r, t)).2.1 =
      t + r := by
  intro withdrawals
  induction withdrawals with
  | nil => intro acc r t; rfl
  | cons w rest ih =>
    intro acc r t
    by_cases h : r = 0
    · simp [takeSimulated, h]
    · simp only [takeSimulated, if_neg h]
      have hih := ih (acc ++ [⟨w.marketParams, min w.amount r⟩]) (r - min w.amount r)
        (t + min w.amount r)
      have hmin : min w.amount r ≤ r := Nat.min_le_right _ _
      omega

lemma processWithdrawalsSimulatedAux_conserves :
    ∀ (entries : List (String × List Withdrawal))
      (wpv : List (String × List Withdrawal)) (r t : Nat),
    (processWithdrawalsSimulatedAux entries (wpv, r, t)).2.2 +
      (processWithdrawalsSimulatedAux entries (wpv, r, t)).2.1 = t + r := by
  intro entries
  induction entries with
  | nil => intro wpv r t; rfl
  | cons e rest ih =>
    intro wpv r t
    obtain ⟨vaultAddress, withdrawals⟩ := e
    by_cases h : r = 0
    · simp [processWithdrawalsSimulatedAux, h]
    · simp only [processWithdrawalsSimulatedAux, if_neg h]
      rcases htaken : takeSimulated withdrawals ([], r, t) with ⟨col, r2, t2⟩
      have hih1 := ih wpv r2 t2
      have hih2 := ih (wpv ++ [(vaultAddress, col)]) r2 t2
      have hcons := takeSimulated_conserves withdrawals [] r t
      rw [htaken] at hcons
      dsimp only at hcons
      by_cases hcol : col = []
      · simp only [hcol, if_pos rfl]
        simpa [hcol] using hih1.trans (by omega)
      · simp only [if_neg hcol]
        omega

/- Preservation of positivity and nonemptiness along the walk. -/

lemma pushWithdrawal_amountsPos (k : String) (w : Withdrawal) (hw : 0 < w.amount) :
    ∀ (wpv : List (String × List Withdrawal)), wpvAmountsPos wpv →
    wpvAmountsPos (pushWithdrawal wpv k w) := by
  intro wpv
  induction wpv with
  | nil =>
    intro _ p hp w2 hw2
    simp [pushWithdrawal] at hp
    subst hp
    simp at hw2
    subst hw2
    exact hw
  | cons q rest ih =>
    obtain ⟨k0, ws⟩ := q
    intro hall
    by_cases h : k0 = k
    · simp only [pushWithdrawal, if_pos h]
      intro p hp w2 hw2
      rcases List.mem_cons.mp hp with hpeq | hpr
      · subst hpeq
        rcases List.mem_append.mp hw2 with h1 | h2
        · exact hall (k0, ws) (List.mem_cons_self _ _) w2 h1
        · simp at h2
          subst h2
          exact hw
      · exact hall p (List.mem_cons_of_mem _ hpr) w2 hw2
    · simp only [pushWithdrawal, if_neg h]
      intro p hp w2 hw2
      rcases List.mem_cons.mp hp with hpeq | hpr
      · subst hpeq
        exact hall (k0, ws) (List.mem_cons_self _ _) w2 hw2
      · exact ih (fun p2 hp2 => hall p2 (List.mem_cons_of_mem _ hp2)) p hpr w2 hw2

lemma pushWithdrawal_groupsNonempty (k : String) (w : Withdrawal) :
    ∀ (wpv : List (String × List Withdrawal)), wpvGroupsNonempty wpv →
    wpvGroupsNonempty (pushWithdrawal wpv k w) := by
  intro wpv
  induction wpv with
  | nil =>
    intro _ p hp
    simp [pushWithdrawal] at hp
    subst hp
    simp
  | cons q rest ih =>
    obtain ⟨k0, ws⟩ := q
    intro hall
    by_cases h : k0 = k
    · simp only [pushWithdrawal, if_pos h]
      intro p hp
      rcases List.mem_cons.mp hp with hpeq | hpr
      · subst hpeq
        simp
      · exact hall p (List.mem_cons_of_mem _ hpr)
    · simp only [pushWithdrawal, if_neg h]
      intro p hp
      rcases List.mem_cons.mp hp with hpeq | hpr
      · subst hpeq
        exact hall (k0, ws) (List.mem_cons_self _ _)
      · exact ih (fun p2 hp2 => hall p2 (List.mem_cons_of_mem _ hp2)) p hpr

lemma takeFromAllocations_amountsPos (assetsOf : α → Nat) (paramsOf : α → MarketParams)
    (vaultAddress : String) :
    ∀ (allocs : List α), (∀ i ∈ allocs, 0 < assetsOf i) →
    ∀ (wpv : List (String × List Withdrawal)) (r t : Nat), wpvAmountsPos wpv →
    wpvAmountsPos (takeFromAllocations assetsOf paramsOf vaultAddress allocs (wpv, r, t)).1 := by
  intro allocs
  induction allocs with
  | nil => intro _ wpv r t hall; exact hall
  | cons item rest ih =>
    intro hpos wpv r t hall
    by_cases h : r = 0
    · simp only [takeFromAllocations]
      simp only [h]
      simpa using hall
    · simp only [takeFromAllocations, if_neg h]
      exact ih (fun i hi => hpos i (List.mem_cons_of_mem _ hi)) _ _ _
        (pushWithdrawal_amountsPos vaultAddress _
          (lt_min (hpos item (List.mem_cons_self _ _)) (Nat.pos_of_ne_zero h)) _ hall)

lemma takeFromAllocations_groupsNonempty (assetsOf : α → Nat) (paramsOf : α → MarketParams)
    (vaultAddress : String) :
    ∀ (allocs : List α) (wpv : List (String × List Withdrawal)) (r t : Nat),
    wpvGroupsNonempty wpv →
    wpvGroupsNonempty (takeFromAllocations assetsOf paramsOf vaultAddress allocs (wpv, r, t)).1 := by
  intro allocs
  induction allocs with
  | nil => intro wpv r t hall; exact hall
  | cons item rest ih =>
    intro wpv r t hall
    by_cases h : r = 0
    · simp only [takeFromAllocations]
      simp only [h]
      simpa using hall
    · simp only [takeFromAllocations, if_neg h]
      exact ih _ _ _ (pushWithdrawal_groupsNonempty vaultAddress _ _ hall)

lemma walkVaults_amountsPos (vaultOf : α → String) (assetsOf : α → Nat)
    (paramsOf : α → MarketParams) (items : List α) (hpos : ∀ i ∈ items, 0 < assetsOf i) :
    ∀ (vaults : List (String × Nat)) (wpv : List (String × List Withdrawal)) (r t : Nat),
    wpvAmountsPos wpv →
    wpvAmountsPos (walkVaults vaultOf assetsOf paramsOf items vaults (wpv, r, t)).1 := by
  intro vaults
  induction vaults with
  | nil => intro wpv r t hall; exact hall
  | cons v rest ih =>
    intro wpv r t hall
    obtain ⟨vaultAddress, agg⟩ := v
    by_cases h : r = 0
    · simp only [walkVaults]
      simp only [h]
      simpa using hall
    · simp only [walkVaults, if_neg h]
      rcases htake : takeFromAllocations assetsOf paramsOf vaultAddress
        (items.filter (fun item => vaultOf item = vaultAddress)) (wpv, r, t) with ⟨wpv2, r2, t2⟩
      have hstep := takeFromAllocations_amountsPos assetsOf paramsOf vaultAddress
        (items.filter (fun item => vaultOf item = vaultAddress))
        (fun i hi => hpos i (List.mem_of_mem_filter hi)) wpv r t hall
      rw [htake] at hstep
      exact ih wpv2 r2 t2 hstep

lemma walkVaults_groupsNonempty (vaultOf : α → String) (assetsOf : α → Nat)
    (paramsOf : α → MarketParams) (items : List α) :
    ∀ (vaults : List (String × Nat)) (wpv : List (String × List Withdrawal)) (r t : Nat),
    wpvGroupsNonempty wpv →
    wpvGroupsNonempty (walkVaults vaultOf assetsOf paramsOf items vaults (wpv, r, t)).1 := by
  intro vaults
  induction vaults with
  | nil => intro wpv r t hall; exact hall
  | cons v rest ih =>
    intro wpv r t hall
    obtain ⟨vaultAddress, agg⟩ := v
    by_cases h : r = 0
    · simp only [walkVaults]
      simp only [h]
      simpa using hall
    · simp only [walkVaults, if_neg h]
      rcases htake : takeFromAllocations assetsOf paramsOf vaultAddress
        (items.filter (fun item => vaultOf item = vaultAddress)) (wpv, r, t) with ⟨wpv2, r2, t2⟩
      have hstep := takeFromAllocations_groupsNonempty assetsOf paramsOf vaultAddress
        (items.filter (fun item => vaultOf item = vaultAddress)) wpv r t hall
      rw [htake] at hstep
      exact ih wpv2 r2 t2 hstep

/- Uniqueness of the sorted order on pairwise distinct keys. -/

lemma eq_of_perm_of_pairwise_key_lt {β : Type} [LinearOrder β] (key : α → β) :
    ∀ (l1 l2 : List α), l1.Perm l2 →
    List.Pairwise (fun a b => key a < key b) l1 →
    List.Pairwise (fun a b => key a < key b) l2 → l1 = l2 := by
  intro l1
  induction l1 with
  | nil =>
    intro l2 hp _ _
    exact (hp.symm.eq_nil).symm
  | cons a t1 ih =>
    intro l2 hp h1 h2
    cases l2 with
    | nil => exact absurd hp.eq_nil (by simp)
    | cons b t2 =>
      have hab : a = b := by
        by_contra hne
        have ha2 : a ∈ t2 := by
          have hm := hp.subset (List.mem_cons_self a t1)
          rcases List.mem_cons.mp hm with h | h
          · exact absurd h hne
          · exact h
        have hb1 : b ∈ t1 := by
          have hm := hp.symm.subset (List.mem_cons_self b t2)
          rcases List.mem_cons.mp hm with h | h
          · exact absurd h.symm hne
          · exact h
        have hlt1 : key a < key b := (List.pairwise_cons.mp h1).1 b hb1
        have hlt2 : key b < key a := (List.pairwise_cons.mp h2).1 a ha2
        exact absurd hlt1 (not_lt_of_gt hlt2)
      subst hab
      have hp2 : t1.Perm t2 := hp.cons_inv
      rw [ih t2 hp2 (List.Pairwise.of_cons h1) (List.Pairwise.of_cons h2)]

lemma pairwise_key_lt_of_sorted_nodup (mid : MarketParams → String) (l : List Withdrawal)
    (hs : List.Pairwise (withdrawalOrder mid) l)
    (hnd : (l.map (fun w => mid w.marketParams)).Nodup) :
    List.Pairwise (fun a b : Withdrawal => mid a.marketParams < mid b.marketParams) l := by
  have hne : List.Pairwise (fun a b : Withdrawal => mid a.marketParams ≠ mid b.marketParams) l :=
    List.pairwise_map.mp hnd
  exact (hs.and hne).imp (fun h => lt_of_le_of_ne h.1 h.2)

lemma sortWithdrawalsForEncoding_perm_eq (mid : MarketParams → String) (ws ws2 : List Withdrawal)
    (hperm : ws2.Perm ws) (hnd : (ws.map (fun w => mid w.marketParams)).Nodup) :
    sortWithdrawalsForEncoding mid ws2 = sortWithdrawalsForEncoding mid ws := by
  have hp1 : (sortWithdrawalsForEncoding mid ws2).Perm ws2 :=
    List.perm_insertionSort (withdrawalOrder mid) ws2
  have hp2 : (sortWithdrawalsForEncoding mid ws).Perm ws :=
    List.perm_insertionSort (withdrawalOrder mid) ws
  have hs1 : List.Pairwise (withdrawalOrder mid) (sortWithdrawalsForEncoding mid ws2) :=
    List.sorted_insertionSort (withdrawalOrder mid) ws2
  have hs2 : List.Pairwise (withdrawalOrder mid) (sortWithdrawalsForEncoding mid ws) :=
    List.sorted_insertionSort (withdrawalOrder mid) ws
  have hnd2 : ((sortWithdrawalsForEncoding mid ws).map (fun w => mid w.marketParams)).Nodup :=
    ((hp2.map (fun w => mid w.marketParams)).nodup_iff).mpr hnd
  have hnd1 : ((sortWithdrawalsForEncoding mid ws2).map (fun w => mid w.marketParams)).Nodup :=
    (((hp1.trans hperm).map (fun w => mid w.marketParams)).nodup_iff).mpr hnd
  exact eq_of_perm_of_pairwise_key_lt (fun w => mid w.marketParams) _ _
    (hp1.trans (hperm.trans hp2.symm))
    (pairwise_key_lt_of_sorted_nodup mid _ hs1 hnd1)
    (pairwise_key_lt_of_sorted_nodup mid _ hs2 hnd2)

lemma vaultOrder_le_of_lt {p q : String × Nat} (hp : p.2 < 2 ^ 53) (hq : q.2 < 2 ^ 53)
    (h : vaultOrder p q) : q.2 ≤ p.2 := by
  unfold vaultOrder at h
  rw [jsNumber_of_lt _ hp, jsNumber_of_lt _ hq] at h
  simp [jsNumGe, jsNumGt] at h
  omega

/- Unfolding equations tying the planner results to the greedy walk. -/

lemma extract_withdrawalsPerVault (marketData : MarketData) (liquidity : Nat) :
    (extractDataForReallocation marketData liquidity).withdrawalsPerVault =
    (walkVaults SharedLiquidityItem.vault SharedLiquidityItem.assets
      SharedLiquidityItem.allocationMarket marketData.publicAllocatorSharedLiquidity
      (sortedVaults marketData.publicAllocatorSharedLiquidity)
      ([], liquidityNeededFromReallocation marketData.liquidityAssets liquidity, 0)).1 := rfl

lemma extract_totalReallocated (marketData : MarketData) (liquidity : Nat) :
    (extractDataForReallocation marketData liquidity).summary.totalReallocated =
    (walkVaults SharedLiquidityItem.vault SharedLiquidityItem.assets
      SharedLiquidityItem.allocationMarket marketData.publicAllocatorSharedLiquidity
      (sortedVaults marketData.publicAllocatorSharedLiquidity)
      ([], liquidityNeededFromReallocation marketData.liquidityAssets liquidity, 0)).2.2 := rfl

lemma processWithdrawals_eq (getParams : String → MarketParams)
    (withdrawals : List PublicReallocation) (liquidityNeeded : Nat) :
    processWithdrawals getParams withdrawals liquidityNeeded =
    ((walkVaults PublicReallocation.vault PublicReallocation.assets
        (fun item => getParams item.id) withdrawals
        (sortVaultEntries
          (groupSumByKey PublicReallocation.vault PublicReallocation.assets withdrawals))
        ([], liquidityNeeded, 0)).1,
      (walkVaults PublicReallocation.vault PublicReallocation.assets
        (fun item => getParams item.id) withdrawals
        (sortVaultEntries
          (groupSumByKey PublicReallocation.vault PublicReallocation.assets withdrawals))
        ([], liquidityNeeded, 0)).2.2) := rfl

/-- Claim C1: for every market-data input and requested liquidity, the sum
    of the amounts of all withdrawals across every vault group of the plan
    produced by extractDataForReallocation equals the summary
    totalReallocated, and likewise the SDK processWithdrawals returns a
    total equal to the sum over its grouped withdrawals. -/
theorem C1_total_reallocated_equals_sum :
    ∀ (marketData : MarketData) (liquidity : Nat) (getParams : String → MarketParams)
      (withdrawals : List PublicReallocation) (liquidityNeeded : Nat),
    sumWpv (extractDataForReallocation marketData liquidity).withdrawalsPerVault =
      (extractDataForReallocation marketData liquidity).summary.totalReallocated ∧
    sumWpv (processWithdrawals getParams withdrawals liquidityNeeded).1 =
      (processWithdrawals getParams withdrawals liquidityNeeded).2 := by
  intro marketData liquidity getParams withdrawals liquidityNeeded
  constructor
  · rw [extract_withdrawalsPerVault, extract_totalReallocated]
    have h := walkVaults_sumWpv SharedLiquidityItem.vault SharedLiquidityItem.assets
      SharedLiquidityItem.allocationMarket marketData.publicAllocatorSharedLiquidity
      (sortedVaults marketData.publicAllocatorSharedLiquidity) []
      (liquidityNeededFromReallocation marketData.liquidityAssets liquidity) 0
    simpa [sumWpv] using h
  · rw [processWithdrawals_eq]
    have h := walkVaults_sumWpv PublicReallocation.vault PublicReallocation.assets
      (fun item => getParams item.id) withdrawals
      (sortVaultEntries
        (groupSumByKey PublicReallocation.vault PublicReallocation.assets withdrawals))
      [] liquidityNeeded 0
    simpa [sumWpv] using h

/-- Claim C2 counterexample: with an empty target market, one 3000-unit
    source allocation, and a request of 2000, the planner reallocates 2002
    units, which exceeds the strict shortfall of 2000, because the
    1001/1000 buffer factor is baked into extractDataForReallocation. -/
theorem C2_counterexample_buffer_exceeds_shortfall :
    ¬ ((extractDataForReallocation marketDataBuffer 2000).summary.totalReallocated ≤
        2000 - marketDataBuffer.liquidityAssets) := by
  decide

/-- Claim C2 amended: the planner never reallocates more than the buffered
    shortfall, that is (requested - available) * 1001 / 1000 when the
    request exceeds the available liquidity and zero otherwise; the SDK
    processWithdrawals never reallocates more than the liquidityNeeded
    argument it is given. -/
theorem C2_amended_reallocated_le_buffered_shortfall :
    ∀ (marketData : MarketData) (liquidity : Nat) (getParams : String → MarketParams)
      (withdrawals : List PublicReallocation) (liquidityNeeded : Nat),
    (extractDataForReallocation marketData liquidity).summary.totalReallocated ≤
      liquidityNeededFromReallocation marketData.liquidityAssets liquidity ∧
    (processWithdrawals getParams withdrawals liquidityNeeded).2 ≤ liquidityNeeded := by
  intro marketData liquidity getParams withdrawals liquidityNeeded
  constructor
  · rw [extract_totalReallocated]
    have h := walkVaults_conserves SharedLiquidityItem.vault SharedLiquidityItem.assets
      SharedLiquidityItem.allocationMarket marketData.publicAllocatorSharedLiquidity
      (sortedVaults marketData.publicAllocatorSharedLiquidity) []
      (liquidityNeededFromReallocation marketData.liquidityAssets liquidity) 0
    omega
  · rw [processWithdrawals_eq]
    have h := walkVaults_conserves PublicReallocation.vault PublicReallocation.assets
      (fun item => getParams item.id) withdrawals
      (sortVaultEntries
        (groupSumByKey PublicReallocation.vault PublicReallocation.assets withdrawals))
      [] liquidityNeeded 0
    dsimp only
    omega

/-- Claim C3 counterexample: with vault A aggregating 2 ^ 53 and vault B
    aggregating 2 ^ 53 + 1, the comparator converts both aggregates to the
    same double and treats them as tied, so the planner keeps the input
    order and does not visit vaults in descending order of the exact
    integer aggregates. -/
theorem C3_counterexample_large_aggregates_not_descending :
    sortedVaults itemsHuge = [("A", 2 ^ 53), ("B", 2 ^ 53 + 1)] ∧
    ¬ List.Pairwise (fun p q : String × Nat => q.2 ≤ p.2) (sortedVaults itemsHuge) := by
  decide

/-- Claim C3 amended: the planner visits vaults in descending order of the
    double (Number) approximation of the per-vault aggregate; the visited
    entries are a permutation of the per-vault aggregates in
    first-appearance order; any two entries in first-appearance order whose
    aggregates convert to the same double keep their relative order (stable
    ties); and whenever every aggregate is below 2 ^ 53, where the double
    conversion is exact, the visit order is descending in the exact
    integer aggregates. -/
theorem C3_amended_vault_visit_order :
    ∀ (items : List SharedLiquidityItem),
    List.Pairwise vaultOrder (sortedVaults items) ∧
    (sortedVaults items).Perm (vaultTotalAssets items) ∧
    (∀ p q : String × Nat, jsNumber p.2 = jsNumber q.2 →
      [p, q].Sublist (vaultTotalAssets items) → [p, q].Sublist (sortedVaults items)) ∧
    ((∀ e ∈ vaultTotalAssets items, e.2 < 2 ^ 53) →
      List.Pairwise (fun p q : String × Nat => q.2 ≤ p.2) (sortedVaults items)) := by
  intro items
  refine ⟨List.sorted_insertionSort vaultOrder _, List.perm_insertionSort vaultOrder _, ?_, ?_⟩
  · intro p q heq hsub
    exact List.pair_sublist_insertionSort (jsNumGe_refl_of_eq (by rw [heq])) hsub
  · intro hsmall
    have hperm := List.perm_insertionSort vaultOrder (vaultTotalAssets items)
    have hs : List.Pairwise vaultOrder (sortedVaults items) :=
      List.sorted_insertionSort vaultOrder _
    refine hs.imp_of_mem ?_
    intro p q hp hq hpq
    exact vaultOrder_le_of_lt (hsmall p (hperm.subset hp)) (hsmall q (hperm.subset hq)) hpq

/-- Witness for the amended claim C3: two vaults with the equal aggregate
    5 keep their first-appearance order, and with small aggregates the
    visit order is descending in the exact integers. -/
theorem C3_amended_vault_visit_order_witness :
    [(("A" : String), 5), ("B", 5)].Sublist
      (sortedVaults [{ vault := "A", assets := 5, allocationMarket := sampleMarket },
        { vault := "B", assets := 5, allocationMarket := sampleMarket }]) ∧
    List.Pairwise (fun p q : String × Nat => q.2 ≤ p.2)
      (sortedVaults [{ vault := "A", assets := 5, allocationMarket := sampleMarket },
        { vault := "B", assets := 5, allocationMarket := sampleMarket }]) := by
  constructor
  · exact (C3_amended_vault_visit_order _).2.2.1 ("A", 5) ("B", 5) rfl (by decide)
  · exact (C3_amended_vault_visit_order _).2.2.2 (by decide)

/-- Claim C4 counterexample: a zero-asset source allocation produces a
    planned withdrawal with amount zero, so it is not the case that every
    withdrawal appearing in the plan has a strictly positive amount. -/
theorem C4_counterexample_zero_amount_withdrawal :
    ¬ (∀ p ∈ (extractDataForReallocation marketDataZeroAsset 1000).withdrawalsPerVault,
        ∀ w ∈ p.2, 0 < w.amount) := by
  decide

/-- Claim C4 amended: when every source allocation has strictly positive
    assets, every withdrawal appearing in the plan has a strictly positive
    amount; and unconditionally every vault key present in the plan carries
    at least one withdrawal. The same holds for the SDK processWithdrawals. -/
theorem C4_amended_positive_withdrawals :
    ∀ (marketData : MarketData) (liquidity : Nat) (getParams : String → MarketParams)
      (withdrawals : List PublicReallocation) (liquidityNeeded : Nat),
    ((∀ item ∈ marketData.publicAllocatorSharedLiquidity, 0 < item.assets) →
      wpvAmountsPos (extractDataForReallocation marketData liquidity).withdrawalsPerVault) ∧
    wpvGroupsNonempty (extractDataForReallocation marketData liquidity).withdrawalsPerVault ∧
    ((∀ item ∈ withdrawals, 0 < item.assets) →
      wpvAmountsPos (processWithdrawals getParams withdrawals liquidityNeeded).1) ∧
    wpvGroupsNonempty (processWithdrawals getParams withdrawals liquidityNeeded).1 := by
  intro marketData liquidity getParams withdrawals liquidityNeeded
  have hempty1 : wpvAmountsPos [] := by intro p hp; cases hp
  have hempty2 : wpvGroupsNonempty [] := by intro p hp; cases hp
  refine ⟨?_, ?_, ?_, ?_⟩
  · intro hpos
    rw [extract_withdrawalsPerVault]
    exact walkVaults_amountsPos _ _ _ _ hpos _ _ _ _ hempty1
  · rw [extract_withdrawalsPerVault]
    exact walkVaults_groupsNonempty _ _ _ _ _ _ _ _ hempty2
  · intro hpos
    rw [processWithdrawals_eq]
    exact walkVaults_amountsPos _ _ _ _ hpos _ _ _ _ hempty1
  · rw [processWithdrawals_eq]
    exact walkVaults_groupsNonempty _ _ _ _ _ _ _ _ hempty2

/-- Witness for the amended claim C4: on a single 40-unit allocation every
    planned withdrawal is positive and every vault key carries a
    withdrawal. -/
theorem C4_amended_positive_withdrawals_witness :
    wpvAmountsPos (extractDataForReallocation marketDataPos 100).withdrawalsPerVault ∧
    wpvGroupsNonempty (extractDataForReallocation marketDataPos 100).withdrawalsPerVault := by
  constructor
  · refine (C4_amended_positive_withdrawals marketDataPos 100 (fun _ => sampleMarket) [] 0).1 ?_
    intro item hitem
    simp [marketDataPos] at hitem
    subst hitem
    decide
  · exact (C4_amended_positive_withdrawals marketDataPos 100 (fun _ => sampleMarket) [] 0).2.1

/-- Claim C5: for every hash implementation and every vault group, the
    withdrawals handed to the downstream encoder are sorted ascending in
    the market id getMarketId, the sorted group is a permutation of the
    group, and when the ids are pairwise distinct the sorted group is the
    same for every input order of the group, so the order is independent of
    the API response order. -/
theorem C5_encoder_sort_canonical :
    ∀ (keccak : List Nat → String) (ws : List Withdrawal),
    List.Pairwise (fun a b : Withdrawal =>
        getMarketId keccak a.marketParams ≤ getMarketId keccak b.marketParams)
      (sortWithdrawalsForEncoding (getMarketId keccak) ws) ∧
    (sortWithdrawalsForEncoding (getMarketId keccak) ws).Perm ws ∧
    (∀ ws2 : List Withdrawal, ws2.Perm ws →
      (ws.map (fun w => getMarketId keccak w.marketParams)).Nodup →
      sortWithdrawalsForEncoding (getMarketId keccak) ws2 =
        sortWithdrawalsForEncoding (getMarketId keccak) ws) := by
  intro keccak ws
  refine ⟨List.sorted_insertionSort (withdrawalOrder (getMarketId keccak)) ws,
    List.perm_insertionSort (withdrawalOrder (getMarketId keccak)) ws,
    fun ws2 hperm hnd =>
      sortWithdrawalsForEncoding_perm_eq (getMarketId keccak) ws ws2 hperm hnd⟩

/-- Witness for claim C5: with a concrete hash, the two orders of a
    two-element group sort to the same list, which is a permutation of the
    group. -/
theorem C5_encoder_sort_canonical_witness :
    sortWithdrawalsForEncoding (getMarketId sampleHash) [wSample1, wSample0] =
      sortWithdrawalsForEncoding (getMarketId sampleHash) [wSample0, wSample1] ∧
    (sortWithdrawalsForEncoding (getMarketId sampleHash) [wSample0, wSample1]).Perm
      [wSample0, wSample1] := by
  constructor
  · exact (C5_encoder_sort_canonical sampleHash [wSample0, wSample1]).2.2
      [wSample1, wSample0] (by decide) (by decide)
  · exact (C5_encoder_sort_canonical sampleHash [wSample0, wSample1]).2.1

/-- Claim C6: the summary satisfies reallocated equals the accumulated
    total of the greedy walk; the fully-matched flag is true exactly when
    the available target liquidity plus the total reallocated covers the
    request; the shortfall is zero when matched and the residual difference
    otherwise; and the SDK logReallocationSummary derives the same two
    values from requested, available and total. -/
theorem C6_summary_consistency :
    ∀ (marketData : MarketData) (liquidity req avail total : Nat),
    (extractDataForReallocation marketData liquidity).summary.totalReallocated =
      (walkVaults SharedLiquidityItem.vault SharedLiquidityItem.assets
        SharedLiquidityItem.allocationMarket marketData.publicAllocatorSharedLiquidity
        (sortedVaults marketData.publicAllocatorSharedLiquidity)
        ([], liquidityNeededFromReallocation marketData.liquidityAssets liquidity, 0)).2.2 ∧
    (extractDataForReallocation marketData liquidity).summary.isLiquidityFullyMatched =
      decide (liquidity ≤ marketData.liquidityAssets +
        (extractDataForReallocation marketData liquidity).summary.totalReallocated) ∧
    (extractDataForReallocation marketData liquidity).summary.liquidityShortfall =
      (if liquidity ≤ marketData.liquidityAssets +
          (extractDataForReallocation marketData liquidity).summary.totalReallocated then 0
        else liquidity - (marketData.liquidityAssets +
          (extractDataForReallocation marketData liquidity).summary.totalReallocated)) ∧
    (logReallocationSummary req avail total).1 = decide (req ≤ avail + total) ∧
    (logReallocationSummary req avail total).2 =
      (if req ≤ avail + total then 0 else req - (avail + total)) := by
  intro marketData liquidity req avail total
  refine ⟨rfl, rfl, rfl, rfl, ?_⟩
  by_cases h : req ≤ avail + total
  · simp [logReallocationSummary, h]
  · simp [logReallocationSummary, h]

/-- Claim C7: when the requested liquidity does not exceed the available
    target liquidity, the planner returns an empty plan with nothing
    reallocated and the matched flag set; and when the source allocation
    list is empty, it returns without error an empty plan whose shortfall
    is the full target shortfall and whose matched flag is true exactly
    when that shortfall is zero. -/
theorem C7_empty_input_behaviour :
    ∀ (marketData : MarketData) (liquidity : Nat),
    (liquidity ≤ marketData.liquidityAssets →
      (extractDataForReallocation marketData liquidity).withdrawalsPerVault = [] ∧
      (extractDataForReallocation marketData liquidity).summary.totalReallocated = 0 ∧
      (extractDataForReallocation marketData liquidity).summary.isLiquidityFullyMatched = true) ∧
    (marketData.publicAllocatorSharedLiquidity = [] →
      (extractDataForReallocation marketData liquidity).withdrawalsPerVault = [] ∧
      (extractDataForReallocation marketData liquidity).summary.totalReallocated = 0 ∧
      (extractDataForReallocation marketData liquidity).summary.liquidityShortfall =
        liquidity - marketData.liquidityAssets ∧
      (extractDataForReallocation marketData liquidity).summary.isLiquidityFullyMatched =
        decide (liquidity - marketData.liquidityAssets = 0)) := by
  intro marketData liquidity
  constructor
  · intro hle
    have hzero : liquidityNeededFromReallocation marketData.liquidityAssets liquidity = 0 := by
      unfold liquidityNeededFromReallocation
      rw [if_neg (by omega)]
    have hwpv : (extractDataForReallocation marketData liquidity).withdrawalsPerVault = [] := by
      rw [extract_withdrawalsPerVault, hzero, walkVaults_of_remaining_zero]
    have htot :
        (extractDataForReallocation marketData liquidity).summary.totalReallocated = 0 := by
      rw [extract_totalReallocated, hzero, walkVaults_of_remaining_zero]
    refine ⟨hwpv, htot, ?_⟩
    have hm : (extractDataForReallocation marketData liquidity).summary.isLiquidityFullyMatched
        = decide (liquidity ≤ marketData.liquidityAssets +
            (extractDataForReallocation marketData liquidity).summary.totalReallocated) := rfl
    rw [hm, htot]
    simp only [decide_eq_true_eq]
    omega
  · intro hitems
    have hwpv : (extractDataForReallocation marketData liquidity).withdrawalsPerVault = [] := by
      rw [extract_withdrawalsPerVault, hitems]
      rfl
    have htot :
        (extractDataForReallocation marketData liquidity).summary.totalReallocated = 0 := by
      rw [extract_totalReallocated, hitems]
      rfl
    refine ⟨hwpv, htot, ?_, ?_⟩
    · have hs : (extractDataForReallocation marketData liquidity).summary.liquidityShortfall =
          (if liquidity ≤ marketData.liquidityAssets +
              (extractDataForReallocation marketData liquidity).summary.totalReallocated then 0
            else liquidity - (marketData.liquidityAssets +
              (extractDataForReallocation marketData liquidity).summary.totalReallocated)) := rfl
      rw [hs, htot]
      split_ifs with h
      · omega
      · omega
    · have hm : (extractDataForReallocation marketData liquidity).summary.isLiquidityFullyMatched
          = decide (liquidity ≤ marketData.liquidityAssets +
              (extractDataForReallocation marketData liquidity).summary.totalReallocated) := rfl
      rw [hm, htot]
      rw [decide_eq_decide]
      omega

/-- Witness for claim C7: with 500 available and 300 requested the plan is
    empty; with no sources and 50 requested the reported shortfall is the
    full 50. -/
theorem C7_empty_input_behaviour_witness :
    (extractDataForReallocation
      { liquidityAssets := 500, publicAllocatorSharedLiquidity := [],
        loanAssetAddress := "tl", collateralAssetAddress := "tc", oracleAddress := "to",
        irmAddress := "ti", lltv := 0 } 300).withdrawalsPerVault = [] ∧
    (extractDataForReallocation
      { liquidityAssets := 0, publicAllocatorSharedLiquidity := [],
        loanAssetAddress := "tl", collateralAssetAddress := "tc", oracleAddress := "to",
        irmAddress := "ti", lltv := 0 } 50).summary.liquidityShortfall = 50 := by
  constructor
  · exact ((C7_empty_input_behaviour _ 300).1 (by decide)).1
  · exact ((C7_empty_input_behaviour _ 50).2 rfl).2.2.1

/-- Claim C8 (code bug witness): the value returned by queryMarketData is
    always a truthy object, because an absent record is replaced by the
    empty object, so the not-found guard of reallocateTo can never fire;
    with absent market data the planning phase is entered and dies with a
    TypeError on reading state.liquidityAssets, instead of the designed
    hard not-found failure before planning. -/
theorem C8_lookup_guard_never_fires :
    ∀ (resp : Option MarketData) (liquidity : Nat),
    jsTruthy (queryMarketData resp) = true ∧
    reallocateToPlanning none liquidity =
      Except.error "TypeError: cannot read liquidityAssets of undefined" := by
  intro resp liquidity
  exact ⟨rfl, rfl⟩

/-- Claim C9: the market identifier is a pure function of the five
    MarketParams fields, and the two implementations computeId (utils.ts)
    and getMarketId (apiBundler.ts) agree for every hash implementation,
    since both hash the same fixed-order canonical encoding of the five
    fields with the same imported keccak256. -/
theorem C9_market_id_pure_and_implementations_agree :
    ∀ (keccak : List Nat → String) (p q : MarketParams),
    (p.loanToken = q.loanToken → p.collateralToken = q.collateralToken →
      p.oracle = q.oracle → p.irm = q.irm → p.lltv = q.lltv →
      computeId keccak p = computeId keccak q) ∧
    computeId keccak p = getMarketId keccak p := by
  intro keccak p q
  refine ⟨?_, rfl⟩
  intro h1 h2 h3 h4 h5
  obtain ⟨a1, a2, a3, a4, a5⟩ := p
  obtain ⟨b1, b2, b3, b4, b5⟩ := q
  simp only at h1 h2 h3 h4 h5
  subst h1
  subst h2
  subst h3
  subst h4
  subst h5
  rfl

/-- Witness for claim C9 at a concrete hash and concrete market
    parameters. -/
theorem C9_market_id_witness :
    computeId sampleHash sampleMarket = computeId sampleHash sampleMarket ∧
    computeId sampleHash sampleMarket = getMarketId sampleHash sampleMarket := by
  exact ⟨(C9_market_id_pure_and_implementations_agree sampleHash sampleMarket sampleMarket).1
      rfl rfl rfl rfl rfl,
    (C9_market_id_pure_and_implementations_agree sampleHash sampleMarket sampleMarket).2⟩

/-- Claim C10: the simulated-script processWithdrawals conserves
    liquidity, totalReallocated plus remainingLiquidity equals the
    liquidity to reallocate, and its fully-matched flag is true exactly
    when the remaining liquidity is zero or below; the same conservation
    equation holds for the greedy walk of extractDataForReallocation,
    whose accumulated total plus remaining shortfall equals the initial
    buffered shortfall. -/
theorem C10_walk_conservation :
    ∀ (withdrawalsPerVault : List (String × List Withdrawal)) (liquidityToReallocate : Nat)
      (marketData : MarketData) (liquidity : Nat),
    (processWithdrawalsSimulated withdrawalsPerVault liquidityToReallocate).totalReallocated +
      (processWithdrawalsSimulated withdrawalsPerVault liquidityToReallocate).remainingLiquidity =
      liquidityToReallocate ∧
    (processWithdrawalsSimulated withdrawalsPerVault liquidityToReallocate).isLiquidityFullyMatched
      = decide
        ((processWithdrawalsSimulated withdrawalsPerVault liquidityToReallocate).remainingLiquidity
          ≤ 0) ∧
    (walkVaults SharedLiquidityItem.vault SharedLiquidityItem.assets
        SharedLiquidityItem.allocationMarket marketData.publicAllocatorSharedLiquidity
        (sortedVaults marketData.publicAllocatorSharedLiquidity)
        ([], liquidityNeededFromReallocation marketData.liquidityAssets liquidity, 0)).2.2 +
      (walkVaults SharedLiquidityItem.vault SharedLiquidityItem.assets
        SharedLiquidityItem.allocationMarket marketData.publicAllocatorSharedLiquidity
        (sortedVaults marketData.publicAllocatorSharedLiquidity)
        ([], liquidityNeededFromReallocation marketData.liquidityAssets liquidity, 0)).2.1 =
      liquidityNeededFromReallocation marketData.liquidityAssets liquidity ∧
    (extractDataForReallocation marketData liquidity).summary.totalReallocated =
      (walkVaults SharedLiquidityItem.vault SharedLiquidityItem.assets
        SharedLiquidityItem.allocationMarket marketData.publicAllocatorSharedLiquidity
        (sortedVaults marketData.publicAllocatorSharedLiquidity)
        ([], liquidityNeededFromReallocation marketData.liquidityAssets liquidity, 0)).2.2 := by
  intro withdrawalsPerVault liquidityToReallocate marketData liquidity
  refine ⟨?_, rfl, ?_, rfl⟩
  · have h := processWithdrawalsSimulatedAux_conserves withdrawalsPerVault []
      liquidityToReallocate 0
    simpa [processWithdrawalsSimulated] using h
  · have h := walkVaults_conserves SharedLiquidityItem.vault SharedLiquidityItem.assets
      SharedLiquidityItem.allocationMarket marketData.publicAllocatorSharedLiquidity
      (sortedVaults marketData.publicAllocatorSharedLiquidity) []
      (liquidityNeededFromReallocation marketData.liquidityAssets liquidity) 0
    omega
